import Mathlib

/-!
Shallow embedding of the core of `src/server.ts` (the fal-to-openai proxy):

* the Prompt Composer `convertMessagesToFalPrompt` (source lines 78-199), and
* the streaming Delta Reconstructor, i.e. the per-event logic of the
  `for await` loop inside `handler` (source lines 332-391).

Strings are modelled as lists of characters (`Str`); for the BMP text handled
here the JS string length (UTF-16 code units) equals the character count, so
`List.length` matches the source's `.length`.  All numeric quantities in the
source are nonnegative integers, modelled as `Nat`; the only subtraction is
`Math.max(0, a - b)`, which is exactly truncated `Nat` subtraction.
-/

abbrev Str := List Char

def strOf (s : String) : Str := s.toList

/-- JS `String.prototype.trim`: strip whitespace from both ends
(source uses `.trim()` on the fixed system text and on the joined blocks). -/
def trimStr (s : Str) : Str :=
  ((s.dropWhile Char.isWhitespace).reverse.dropWhile Char.isWhitespace).reverse

/-- Message roles; every role other than system/user/assistant is modelled by
`other` (the source drops such messages with a logged warning). -/
inductive Role where
  | system
  | user
  | assistant
  | other
deriving DecidableEq

/-- One chat message. `content = none` models JS `null`/`undefined` content,
which the source normalizes to the empty string (line 85). -/
structure ChatMessage where
  role : Role
  content : Option Str
deriving DecidableEq

/-- Source line 25. -/
def PROMPT_LIMIT : Nat := 4800

/-- Source line 26. -/
def SYSTEM_PROMPT_LIMIT : Nat := 4800

/-- The separator literal inserted between the fixed system text and the
conversation history placed in the system slot (source line 167). -/
def SEPARATOR : Str := strOf "\n\n-------下面是比较早之前的对话内容-----\n\n"

/-- Step 1, system side (source lines 84-100): concatenation, in order, of
`System: ` ++ content ++ two newlines over the system-role messages. -/
def fixedSystemRaw : List ChatMessage → Str
  | [] => []
  | m :: rest =>
    match m.role with
    | Role.system => (strOf "System: " ++ m.content.getD [] ++ strOf "\n\n") ++ fixedSystemRaw rest
    | _ => fixedSystemRaw rest

/-- Step 1, conversation side (source lines 84-100): the ordered list of
formatted `Human: `/`Assistant: ` blocks; system and unknown roles contribute
nothing here. -/
def conversation_message_blocks : List ChatMessage → List Str
  | [] => []
  | m :: rest =>
    match m.role with
    | Role.user =>
      (strOf "Human: " ++ m.content.getD [] ++ strOf "\n\n") :: conversation_message_blocks rest
    | Role.assistant =>
      (strOf "Assistant: " ++ m.content.getD [] ++ strOf "\n\n") :: conversation_message_blocks rest
    | _ => conversation_message_blocks rest

/-- Step 2 (source lines 103-109): truncate the combined system text to
`SYSTEM_PROMPT_LIMIT` characters and trim.  `List.take` is the identity when
the text is already within the limit, which matches the source's conditional
`substring(0, SYSTEM_PROMPT_LIMIT)`. -/
def fixed_system_prompt_content (messages : List ChatMessage) : Str :=
  trimStr ((fixedSystemRaw messages).take SYSTEM_PROMPT_LIMIT)

/-- Step 3 (source lines 112-116): the system-slot history budget.  When the
trimmed fixed text is non-empty it occupies its length plus 4 reserved
characters; `Nat` subtraction models `Math.max(0, ...)`. -/
def remaining_system_limit (messages : List ChatMessage) : Nat :=
  if 0 < (fixed_system_prompt_content messages).length then
    SYSTEM_PROMPT_LIMIT - ((fixed_system_prompt_content messages).length + 4)
  else SYSTEM_PROMPT_LIMIT

/-- The mutable state of the reverse-fill loop (source lines 120-125). -/
structure FillState where
  prompt_history_blocks : List Str
  system_prompt_history_blocks : List Str
  current_prompt_length : Nat
  current_system_history_length : Nat
  promptFull : Bool
  systemHistoryFull : Bool
deriving DecidableEq

/-- State before the loop (source lines 120-125):
`systemHistoryFull` starts true when the remaining system budget is zero. -/
def initFillState (sysLimit : Nat) : FillState :=
  { prompt_history_blocks := [],
    system_prompt_history_blocks := [],
    current_prompt_length := 0,
    current_system_history_length := 0,
    promptFull := false,
    systemHistoryFull := decide (sysLimit ≤ 0) }

/-- One iteration of the reverse-fill loop (source lines 128-160), for the
current block.  Branches, in the source's order: the early `break` when both
slots are full; placing the block in the prompt slot; placing it in the
system-history slot (which is only reached when the prompt slot is, or has
just become, full — hence `promptFull := true` in the last two branches);
and marking the system slot full.  `unshift` is modelled by consing, so the
accumulated lists stay in original chronological order. -/
def fillStep (promptLimit sysLimit : Nat) (st : FillState) (block : Str) : FillState :=
  if st.promptFull = true ∧ st.systemHistoryFull = true then st
  else if st.promptFull = false ∧ st.current_prompt_length + block.length ≤ promptLimit then
    { st with prompt_history_blocks := block :: st.prompt_history_blocks,
              current_prompt_length := st.current_prompt_length + block.length }
  else if st.systemHistoryFull = false ∧ st.current_system_history_length + block.length ≤ sysLimit then
    { st with promptFull := true,
              system_prompt_history_blocks := block :: st.system_prompt_history_blocks,
              current_system_history_length := st.current_system_history_length + block.length }
  else
    { st with promptFull := true, systemHistoryFull := true }

/-- Step 4 (source lines 128-160): walk the conversation blocks most-recent
first, i.e. fold over the reversed block list. -/
def fillBlocks (promptLimit sysLimit : Nat) (blocks : List Str) : FillState :=
  blocks.reverse.foldl (fillStep promptLimit sysLimit) (initFillState sysLimit)

/-- The fill-loop state the composer ends with for a given message list. -/
def fillStateFor (messages : List ChatMessage) : FillState :=
  fillBlocks PROMPT_LIMIT (remaining_system_limit messages) (conversation_message_blocks messages)

/-- Source line 163: the conversation history placed in the system slot,
joined and trimmed. -/
def system_prompt_history_content (messages : List ChatMessage) : Str :=
  trimStr (fillStateFor messages).system_prompt_history_blocks.flatten

/-- Source line 164: the primary prompt, joined and trimmed. -/
def final_prompt (messages : List ChatMessage) : Str :=
  trimStr (fillStateFor messages).prompt_history_blocks.flatten

/-- The composer's result (source lines 190-193). -/
structure ComposedPrompt where
  system_prompt : Str
  prompt : Str
deriving DecidableEq

/-- Steps 5-6 (source lines 162-198): assemble the final system prompt from
the fixed part and the history part (separator only when both are non-empty)
and return the pair. -/
def convertMessagesToFalPrompt (messages : List ChatMessage) : ComposedPrompt :=
  { system_prompt :=
      if 0 < (fixed_system_prompt_content messages).length ∧
          0 < (system_prompt_history_content messages).length then
        fixed_system_prompt_content messages ++ SEPARATOR ++ system_prompt_history_content messages
      else if 0 < (fixed_system_prompt_content messages).length then
        fixed_system_prompt_content messages
      else if 0 < (system_prompt_history_content messages).length then
        system_prompt_history_content messages
      else [],
    prompt := final_prompt messages }

/-- True exactly for the messages that produce conversation blocks. -/
def isConversationMessage (m : ChatMessage) : Bool :=
  match m.role with
  | Role.user => true
  | Role.assistant => true
  | _ => false

/-- True exactly for the system-role messages. -/
def isSystemMessage (m : ChatMessage) : Bool :=
  match m.role with
  | Role.system => true
  | _ => false

/-! ## Delta Reconstructor (streaming) -/

/-- One backend stream event (source lines 337-340): `output = none` models an
absent or non-string `output` field, `partFlag = none` an absent or non-boolean
`partial` field, `error = none` an absent/falsy error payload. -/
structure FalStreamEvent where
  output : Option Str
  partFlag : Option Bool
  error : Option Str
deriving DecidableEq

/-- Source line 338: `currentOutput` defaults to the empty string. -/
def currentOutputOf (e : FalStreamEvent) : Str := e.output.getD []

/-- Source line 339: `isPartial` defaults to true. -/
def partOf (e : FalStreamEvent) : Bool := e.partFlag.getD true

/-- One emitted unit: the delta text, whether `finish_reason` is terminal, and
the error payload if this is an error chunk (source lines 344-358, 375-385). -/
structure OutputChunk where
  deltaText : Str
  isFinal : Bool
  errorInfo : Option Str
deriving DecidableEq

/-- The delta computation (source lines 363-371): the suffix when the current
snapshot extends the previous one; the whole snapshot when it does not but is
non-empty; empty otherwise. -/
def computeDelta (previousOutput currentOutput : Str) : Str :=
  if previousOutput.isPrefixOf currentOutput then
    currentOutput.drop previousOutput.length
  else if 0 < currentOutput.length then
    currentOutput
  else
    []

/-- The terminal error chunk (source lines 344-358), carrying the error
payload. -/
def errorChunk (err : Str) : OutputChunk :=
  { deltaText := [], isFinal := true, errorInfo := some err }

/-- One iteration of the event loop (source lines 337-387): returns the chunk
written for this event (if any), the new tracked `previousOutput`, and whether
the loop `break`s.  On an error event the error chunk is written and the loop
stops; otherwise the delta is computed, `previousOutput` becomes the current
snapshot unconditionally (line 372), and a chunk is written only when the
delta is non-empty or `isPartial` is explicitly false (line 374). -/
def processEvent (e : FalStreamEvent) (previousOutput : Str) :
    Option OutputChunk × Str × Bool :=
  match e.error with
  | some err => (some (errorChunk err), previousOutput, true)
  | none =>
    ((if 0 < (computeDelta previousOutput (currentOutputOf e)).length ∨ partOf e = false then
        some { deltaText := computeDelta previousOutput (currentOutputOf e),
               isFinal := !(partOf e),
               errorInfo := none }
      else none),
     currentOutputOf e, false)

/-- The whole event loop (source lines 337-388): all chunks written for a
sequence of events, threading `previousOutput` and honouring the `break`. -/
def processStream : List FalStreamEvent → Str → List OutputChunk
  | [], _ => []
  | e :: rest, prev =>
    match processEvent e prev with
    | (chunk, newPrev, stopFlag) =>
      chunk.toList ++ (if stopFlag then [] else processStream rest newPrev)

/-- One frame on the SSE wire: a data chunk or the literal done terminator. -/
inductive SSEFrame where
  | chunk (c : OutputChunk)
  | done
deriving DecidableEq

/-- The full streaming response body (source lines 334-390): the loop's chunks
starting from an empty tracked output, then the done terminator (line 390,
reached both after natural termination and after the error `break`). -/
def runStream (events : List FalStreamEvent) : List SSEFrame :=
  (processStream events []).map SSEFrame.chunk ++ [SSEFrame.done]

/-- The spec's four-message composer example. -/
def exampleMessages : List ChatMessage :=
  [⟨Role.system, some (strOf "A")⟩, ⟨Role.user, some (strOf "B")⟩,
   ⟨Role.assistant, some (strOf "C")⟩, ⟨Role.user, some (strOf "D")⟩]

/-- A user message whose formatted block (content plus 9 framing characters)
exceeds both the prompt budget and the full system budget. -/
def bigUserMessage : ChatMessage := ⟨Role.user, some (List.replicate 4801 'a')⟩

/-- The spec's streaming example: snapshots `Hi`, `Hi there`, `Hi there!`,
the last marked final. -/
def exampleEvents : List FalStreamEvent :=
  [⟨some (strOf "Hi"), some true, none⟩,
   ⟨some (strOf "Hi there"), some true, none⟩,
   ⟨some (strOf "Hi there!"), some false, none⟩]

/-- The tracked `previousOutput` after an error-free run of events: each event
overwrites it with that event's extracted output (source line 372). -/
def prevAfter (events : List FalStreamEvent) (prev : Str) : Str :=
  events.foldl (fun _ e => currentOutputOf e) prev

/-! ## Basic length lemmas -/

theorem length_dropWhile_le {α : Type} (p : α → Bool) (l : List α) :
    (l.dropWhile p).length ≤ l.length := by
  induction l with
  | nil => simp [List.dropWhile]
  | cons a l ih =>
    rw [List.dropWhile_cons]
    split
    · exact le_trans ih (Nat.le_succ _)
    · exact Nat.le_refl _

theorem trimStr_length_le (s : Str) : (trimStr s).length ≤ s.length := by
  unfold trimStr
  rw [List.length_reverse]
  refine le_trans (length_dropWhile_le _ _) ?_
  rw [List.length_reverse]
  exact length_dropWhile_le _ _

theorem fixed_length_le (messages : List ChatMessage) :
    (fixed_system_prompt_content messages).length ≤ SYSTEM_PROMPT_LIMIT := by
  unfold fixed_system_prompt_content
  refine le_trans (trimStr_length_le _) ?_
  rw [List.length_take]
  exact min_le_left _ _

theorem remaining_le (messages : List ChatMessage) :
    remaining_system_limit messages ≤ SYSTEM_PROMPT_LIMIT := by
  unfold remaining_system_limit
  split
  · exact Nat.sub_le _ _
  · exact Nat.le_refl _

/-! ## Fill-loop invariants: accumulated lengths track the block lists and
never exceed their budgets -/

theorem fillStep_inv (pl sl : Nat) (st : FillState) (b : Str)
    (h1 : st.current_prompt_length = (st.prompt_history_blocks.map List.length).sum)
    (h2 : st.current_prompt_length ≤ pl)
    (h3 : st.current_system_history_length = (st.system_prompt_history_blocks.map List.length).sum)
    (h4 : st.current_system_history_length ≤ sl) :
    (fillStep pl sl st b).current_prompt_length =
        (((fillStep pl sl st b).prompt_history_blocks).map List.length).sum ∧
    (fillStep pl sl st b).current_prompt_length ≤ pl ∧
    (fillStep pl sl st b).current_system_history_length =
        (((fillStep pl sl st b).system_prompt_history_blocks).map List.length).sum ∧
    (fillStep pl sl st b).current_system_history_length ≤ sl := by
  obtain ⟨pb, sb, cp, cs, pf, sf⟩ := st
  simp only at h1 h2 h3 h4
  unfold fillStep
  split_ifs with hA hB hC
  · exact ⟨h1, h2, h3, h4⟩
  · refine ⟨?_, hB.2, h3, h4⟩
    simp only [List.map_cons, List.sum_cons]
    omega
  · refine ⟨h1, h2, ?_, hC.2⟩
    simp only [List.map_cons, List.sum_cons]
    omega
  · exact ⟨h1, h2, h3, h4⟩

theorem fill_inv (pl sl : Nat) :
    ∀ (r : List Str) (st : FillState),
      st.current_prompt_length = (st.prompt_history_blocks.map List.length).sum →
      st.current_prompt_length ≤ pl →
      st.current_system_history_length = (st.system_prompt_history_blocks.map List.length).sum →
      st.current_system_history_length ≤ sl →
      (List.foldl (fillStep pl sl) st r).current_prompt_length =
          (((List.foldl (fillStep pl sl) st r).prompt_history_blocks).map List.length).sum ∧
      (List.foldl (fillStep pl sl) st r).current_prompt_length ≤ pl ∧
      (List.foldl (fillStep pl sl) st r).current_system_history_length =
          (((List.foldl (fillStep pl sl) st r).system_prompt_history_blocks).map List.length).sum ∧
      (List.foldl (fillStep pl sl) st r).current_system_history_length ≤ sl := by
  intro r
  induction r with
  | nil => intro st h1 h2 h3 h4; exact ⟨h1, h2, h3, h4⟩
  | cons b rest ih =>
    intro st h1 h2 h3 h4
    rw [List.foldl_cons]
    obtain ⟨g1, g2, g3, g4⟩ := fillStep_inv pl sl st b h1 h2 h3 h4
    exact ih (fillStep pl sl st b) g1 g2 g3 g4

theorem fillBlocks_prompt_length (pl sl : Nat) (blocks : List Str) :
    ((fillBlocks pl sl blocks).prompt_history_blocks.flatten).length ≤ pl := by
  have h := fill_inv pl sl blocks.reverse (initFillState sl) rfl (Nat.zero_le _) rfl (Nat.zero_le _)
  rw [List.length_flatten]
  unfold fillBlocks
  omega

theorem fillBlocks_sys_length (pl sl : Nat) (blocks : List Str) :
    ((fillBlocks pl sl blocks).system_prompt_history_blocks.flatten).length ≤ sl := by
  have h := fill_inv pl sl blocks.reverse (initFillState sl) rfl (Nat.zero_le _) rfl (Nat.zero_le _)
  rw [List.length_flatten]
  unfold fillBlocks
  omega

/-- C1: for every list of chat messages, the composed prompt fits in
`PROMPT_LIMIT`, the history portion placed in the system slot fits in the
derived remaining system budget, and the final system prompt fits in
`SYSTEM_PROMPT_LIMIT` plus the separator length. -/
theorem C1_budget_invariant (messages : List ChatMessage) :
    (convertMessagesToFalPrompt messages).prompt.length ≤ PROMPT_LIMIT ∧
    (system_prompt_history_content messages).length ≤ remaining_system_limit messages ∧
    (convertMessagesToFalPrompt messages).system_prompt.length ≤
      SYSTEM_PROMPT_LIMIT + SEPARATOR.length := by
  have hp : (convertMessagesToFalPrompt messages).prompt.length ≤ PROMPT_LIMIT := by
    show (final_prompt messages).length ≤ PROMPT_LIMIT
    unfold final_prompt fillStateFor
    exact le_trans (trimStr_length_le _) (fillBlocks_prompt_length _ _ _)
  have hh : (system_prompt_history_content messages).length ≤ remaining_system_limit messages := by
    unfold system_prompt_history_content fillStateFor
    exact le_trans (trimStr_length_le _) (fillBlocks_sys_length _ _ _)
  refine ⟨hp, hh, ?_⟩
  have hfix := fixed_length_le messages
  show (convertMessagesToFalPrompt messages).system_prompt.length ≤ _
  unfold convertMessagesToFalPrompt
  simp only
  split_ifs with hA hB hC
  · rw [List.length_append, List.length_append]
    have hrem : remaining_system_limit messages =
        SYSTEM_PROMPT_LIMIT - ((fixed_system_prompt_content messages).length + 4) := by
      unfold remaining_system_limit
      rw [if_pos hA.1]
    rw [hrem] at hh
    omega
  · omega
  · have := remaining_le messages
    omega
  · simp

/-! ## Fill-loop structure: the retained blocks form a contiguous suffix -/

theorem fillStep_frozen (pl sl : Nat) (st : FillState) (b : Str)
    (hp : st.promptFull = true) (hs : st.systemHistoryFull = true) :
    fillStep pl sl st b = st := by
  unfold fillStep
  rw [if_pos ⟨hp, hs⟩]

theorem foldl_fill_frozen (pl sl : Nat) (r : List Str) (st : FillState)
    (hp : st.promptFull = true) (hs : st.systemHistoryFull = true) :
    List.foldl (fillStep pl sl) st r = st := by
  induction r with
  | nil => rfl
  | cons b rest ih =>
    rw [List.foldl_cons, fillStep_frozen pl sl st b hp hs]
    exact ih

theorem fill_phaseB (pl sl : Nat) :
    ∀ (r : List Str) (st : FillState), st.promptFull = true →
      ∃ j, j ≤ r.length ∧
        (List.foldl (fillStep pl sl) st r).prompt_history_blocks = st.prompt_history_blocks ∧
        (List.foldl (fillStep pl sl) st r).system_prompt_history_blocks =
          (r.take j).reverse ++ st.system_prompt_history_blocks := by
  intro r
  induction r with
  | nil => intro st hp; exact ⟨0, by simp⟩
  | cons b rest ih =>
    intro st hp
    by_cases hs : st.systemHistoryFull = true
    · rw [foldl_fill_frozen pl sl (b :: rest) st hp hs]
      exact ⟨0, by simp⟩
    · have hs' : st.systemHistoryFull = false := by
        cases h : st.systemHistoryFull
        · rfl
        · exact absurd h hs
      by_cases hfit : st.current_system_history_length + b.length ≤ sl
      · have hstep : fillStep pl sl st b =
            { st with promptFull := true,
                      system_prompt_history_blocks := b :: st.system_prompt_history_blocks,
                      current_system_history_length := st.current_system_history_length + b.length } := by
          unfold fillStep
          rw [if_neg (by simp [hs']), if_neg (by simp [hp]), if_pos ⟨hs', hfit⟩]
        obtain ⟨j, hj, hpr, hsy⟩ := ih (fillStep pl sl st b) (by rw [hstep])
        refine ⟨j + 1, by simp; omega, ?_, ?_⟩
        · rw [List.foldl_cons, hpr, hstep]
        · rw [List.foldl_cons, hsy, hstep]
          simp
      · have hstep : fillStep pl sl st b =
            { st with promptFull := true, systemHistoryFull := true } := by
          unfold fillStep
          rw [if_neg (by simp [hs']), if_neg (by simp [hp]), if_neg (by simp [hfit])]
        rw [List.foldl_cons,
          foldl_fill_frozen pl sl rest (fillStep pl sl st b) (by rw [hstep]) (by rw [hstep]), hstep]
        exact ⟨0, by simp⟩

theorem fill_phaseA (pl sl : Nat) :
    ∀ (r : List Str) (st : FillState), st.promptFull = false →
      ∃ i j, i ≤ j ∧ j ≤ r.length ∧
        (List.foldl (fillStep pl sl) st r).prompt_history_blocks =
          (r.take i).reverse ++ st.prompt_history_blocks ∧
        (List.foldl (fillStep pl sl) st r).system_prompt_history_blocks =
          ((r.drop i).take (j - i)).reverse ++ st.system_prompt_history_blocks := by
  intro r
  induction r with
  | nil => intro st hp; exact ⟨0, 0, by simp⟩
  | cons b rest ih =>
    intro st hp
    by_cases hfit : st.current_prompt_length + b.length ≤ pl
    · have hstep : fillStep pl sl st b =
          { st with prompt_history_blocks := b :: st.prompt_history_blocks,
                    current_prompt_length := st.current_prompt_length + b.length } := by
        unfold fillStep
        rw [if_neg (by simp [hp]), if_pos ⟨hp, hfit⟩]
      obtain ⟨i, j, hij, hj, hpr, hsy⟩ := ih (fillStep pl sl st b) (by rw [hstep]; exact hp)
      refine ⟨i + 1, j + 1, by omega, by simp; omega, ?_, ?_⟩
      · rw [List.foldl_cons, hpr, hstep]
        simp
      · rw [List.foldl_cons, hsy, hstep]
        simp [Nat.succ_sub_succ]
    · by_cases hsys : st.systemHistoryFull = false ∧ st.current_system_history_length + b.length ≤ sl
      · have hstep : fillStep pl sl st b =
            { st with promptFull := true,
                      system_prompt_history_blocks := b :: st.system_prompt_history_blocks,
                      current_system_history_length := st.current_system_history_length + b.length } := by
          unfold fillStep
          rw [if_neg (by simp [hp]), if_neg (by simp [hfit]), if_pos hsys]
        obtain ⟨j, hj, hpr, hsy⟩ := fill_phaseB pl sl rest (fillStep pl sl st b) (by rw [hstep])
        refine ⟨0, j + 1, by omega, by simp; omega, ?_, ?_⟩
        · rw [List.foldl_cons, hpr, hstep]
          simp
        · rw [List.foldl_cons, hsy, hstep]
          simp
      · have hstep : fillStep pl sl st b =
            { st with promptFull := true, systemHistoryFull := true } := by
          unfold fillStep
          rw [if_neg (by simp [hp]), if_neg (by simp [hfit]), if_neg hsys]
        rw [List.foldl_cons,
          foldl_fill_frozen pl sl rest (fillStep pl sl st b) (by rw [hstep]) (by rw [hstep]), hstep]
        exact ⟨0, 0, by simp⟩

theorem fillBlocks_structure (pl sl : Nat) (blocks : List Str) :
    ∃ i j, i ≤ j ∧ j ≤ blocks.length ∧
      (fillBlocks pl sl blocks).prompt_history_blocks = blocks.drop (blocks.length - i) ∧
      (fillBlocks pl sl blocks).system_prompt_history_blocks ++
        (fillBlocks pl sl blocks).prompt_history_blocks = blocks.drop (blocks.length - j) := by
  obtain ⟨i, j, hij, hj, hpr, hsy⟩ := fill_phaseA pl sl blocks.reverse (initFillState sl) rfl
  have hr : (fillBlocks pl sl blocks) =
      List.foldl (fillStep pl sl) (initFillState sl) blocks.reverse := rfl
  have hinit_p : (initFillState sl).prompt_history_blocks = [] := rfl
  have hinit_s : (initFillState sl).system_prompt_history_blocks = [] := rfl
  rw [hinit_p, List.append_nil] at hpr
  rw [hinit_s, List.append_nil] at hsy
  refine ⟨i, j, hij, by simpa using hj, ?_, ?_⟩
  · rw [hr, hpr, List.reverse_take]
    simp
  · rw [hr, hpr, hsy, ← List.reverse_append, ← List.take_add]
    have hji : i + (j - i) = j := by omega
    rw [hji, List.reverse_take]
    simp

/-- C2: the conversation blocks retained across the two slots (system-slot
history followed by prompt history) are exactly the K most recent blocks for
some K, in their original relative order; every older block is dropped, and
no older block is ever kept while a more recent one is dropped. -/
theorem C2_recency_preservation (messages : List ChatMessage) :
    ∃ K, K ≤ (conversation_message_blocks messages).length ∧
      (fillStateFor messages).system_prompt_history_blocks ++
          (fillStateFor messages).prompt_history_blocks =
        (conversation_message_blocks messages).drop
          ((conversation_message_blocks messages).length - K) := by
  obtain ⟨i, j, hij, hj, hpr, hco⟩ :=
    fillBlocks_structure PROMPT_LIMIT (remaining_system_limit messages)
      (conversation_message_blocks messages)
  exact ⟨j, hj, hco⟩

/-- C9: the prompt slot holds a contiguous run of the most recent blocks (a
suffix of the block list), and the system-slot history holds the contiguous
run of blocks immediately older than those, so every block placed in the
system slot is strictly older than every block placed in the prompt. -/
theorem C9_system_history_older (messages : List ChatMessage) :
    ∃ i j, i ≤ j ∧ j ≤ (conversation_message_blocks messages).length ∧
      (fillStateFor messages).prompt_history_blocks =
        (conversation_message_blocks messages).drop
          ((conversation_message_blocks messages).length - i) ∧
      (fillStateFor messages).system_prompt_history_blocks ++
          (fillStateFor messages).prompt_history_blocks =
        (conversation_message_blocks messages).drop
          ((conversation_message_blocks messages).length - j) := by
  obtain ⟨i, j, hij, hj, hpr, hco⟩ :=
    fillBlocks_structure PROMPT_LIMIT (remaining_system_limit messages)
      (conversation_message_blocks messages)
  exact ⟨i, j, hij, hj, hpr, hco⟩

/-! ## Role partition: the prompt slot is built only from user/assistant
messages, the fixed system text only from system messages -/

theorem conv_blocks_filter (messages : List ChatMessage) :
    conversation_message_blocks (messages.filter isConversationMessage) =
      conversation_message_blocks messages := by
  induction messages with
  | nil => rfl
  | cons m rest ih =>
    cases hr : m.role <;>
      simp [List.filter_cons, isConversationMessage, hr, conversation_message_blocks, ih]

theorem fixedSystemRaw_filter (messages : List ChatMessage) :
    fixedSystemRaw (messages.filter isSystemMessage) = fixedSystemRaw messages := by
  induction messages with
  | nil => rfl
  | cons m rest ih =>
    cases hr : m.role <;>
      simp [List.filter_cons, isSystemMessage, hr, fixedSystemRaw, ih]

theorem fillStep_prompt_components (pl sl : Nat) (st : FillState) (b : Str) :
    ((fillStep pl sl st b).prompt_history_blocks,
     (fillStep pl sl st b).current_prompt_length,
     (fillStep pl sl st b).promptFull) =
    if st.promptFull = false ∧ st.current_prompt_length + b.length ≤ pl then
      (b :: st.prompt_history_blocks, st.current_prompt_length + b.length, false)
    else
      (st.prompt_history_blocks, st.current_prompt_length, true) := by
  obtain ⟨pb, sb, cp, cs, pf, sf⟩ := st
  cases pf <;> cases sf <;>
    simp only [fillStep] <;> split_ifs <;> simp_all

theorem fill_prompt_proj (pl sl sl' : Nat) :
    ∀ (r : List Str) (st st' : FillState),
      st.prompt_history_blocks = st'.prompt_history_blocks →
      st.current_prompt_length = st'.current_prompt_length →
      st.promptFull = st'.promptFull →
      (List.foldl (fillStep pl sl) st r).prompt_history_blocks =
        (List.foldl (fillStep pl sl') st' r).prompt_history_blocks ∧
      (List.foldl (fillStep pl sl) st r).current_prompt_length =
        (List.foldl (fillStep pl sl') st' r).current_prompt_length ∧
      (List.foldl (fillStep pl sl) st r).promptFull =
        (List.foldl (fillStep pl sl') st' r).promptFull := by
  intro r
  induction r with
  | nil => intro st st' h1 h2 h3; exact ⟨h1, h2, h3⟩
  | cons b rest ih =>
    intro st st' h1 h2 h3
    rw [List.foldl_cons, List.foldl_cons]
    have e1 := fillStep_prompt_components pl sl st b
    have e2 := fillStep_prompt_components pl sl' st' b
    rw [h1, h2, h3, ← e2] at e1
    exact ih _ _ (congrArg Prod.fst e1)
      (congrArg (fun t => t.2.1) e1) (congrArg (fun t => t.2.2) e1)

/-- C8: role partition.  Removing every non-conversation message leaves the
composed `prompt` unchanged (so system-role content never reaches `prompt`),
removing every non-system message leaves the fixed system text unchanged (so
user/assistant content never reaches the fixed system portion), and the
spec's four-message example composes to exactly the stated pair. -/
theorem C8_role_partition :
    (∀ messages : List ChatMessage,
      (convertMessagesToFalPrompt (messages.filter isConversationMessage)).prompt =
        (convertMessagesToFalPrompt messages).prompt) ∧
    (∀ messages : List ChatMessage,
      fixed_system_prompt_content (messages.filter isSystemMessage) =
        fixed_system_prompt_content messages) ∧
    convertMessagesToFalPrompt exampleMessages =
      ⟨strOf "System: A", strOf "Human: B\n\nAssistant: C\n\nHuman: D"⟩ := by
  refine ⟨?_, ?_, by decide⟩
  · intro messages
    show final_prompt (messages.filter isConversationMessage) = final_prompt messages
    unfold final_prompt fillStateFor fillBlocks
    rw [conv_blocks_filter]
    exact congrArg (fun l => trimStr l.flatten)
      (fill_prompt_proj PROMPT_LIMIT
        (remaining_system_limit (messages.filter isConversationMessage))
        (remaining_system_limit messages)
        (conversation_message_blocks messages).reverse
        (initFillState (remaining_system_limit (messages.filter isConversationMessage)))
        (initFillState (remaining_system_limit messages)) rfl rfl rfl).1
  · intro messages
    unfold fixed_system_prompt_content
    rw [fixedSystemRaw_filter]

/-! ## Non-emptiness of the prompt -/

theorem trimStr_ne_nil (s : Str) (c : Char) (hc : c ∈ s) (hw : c.isWhitespace = false) :
    trimStr s ≠ [] := by
  intro h
  unfold trimStr at h
  rw [List.reverse_eq_nil_iff, List.dropWhile_eq_nil_iff] at h
  have hcd : c ∈ s.dropWhile Char.isWhitespace := by
    have hsplit := List.takeWhile_append_dropWhile Char.isWhitespace s
    rcases List.mem_append.mp (show c ∈ _ ++ _ by rw [hsplit]; exact hc) with h1 | h2
    · have := List.mem_takeWhile_imp h1
      rw [hw] at this
      exact absurd this (by simp)
    · exact h2
  have hws := h c (by simpa using hcd)
  rw [hw] at hws
  exact absurd hws (by simp)

theorem conv_block_has_nonws (messages : List ChatMessage) :
    ∀ b ∈ conversation_message_blocks messages, ∃ c ∈ b, c.isWhitespace = false := by
  induction messages with
  | nil => intro b hb; simp [conversation_message_blocks] at hb
  | cons m rest ih =>
    intro b hb
    rw [conversation_message_blocks] at hb
    cases hr : m.role <;> rw [hr] at hb
    · exact ih b hb
    · rcases List.mem_cons.mp hb with heq | hmem
      · refine ⟨'H', ?_, by decide⟩
        rw [heq]
        exact List.mem_append_left _ (List.mem_append_left _ (by decide))
      · exact ih b hmem
    · rcases List.mem_cons.mp hb with heq | hmem
      · refine ⟨'A', ?_, by decide⟩
        rw [heq]
        exact List.mem_append_left _ (List.mem_append_left _ (by decide))
      · exact ih b hmem
    · exact ih b hb

theorem fillBlocks_single_too_big (pl sl : Nat) (b : Str)
    (h1 : ¬ b.length ≤ pl) (h2 : ¬ b.length ≤ sl) :
    (fillBlocks pl sl [b]).prompt_history_blocks = [] := by
  unfold fillBlocks
  simp only [List.reverse_cons, List.reverse_nil, List.nil_append, List.foldl_cons, List.foldl_nil]
  unfold fillStep initFillState
  rw [if_neg (by simp), if_neg (by simpa using h1), if_neg ?_]
  intro hcon
  exact h2 (by simpa using hcon.2)

/-- C4 counterexample: `[bigUserMessage]` contains a user message and
`PROMPT_LIMIT` is positive, yet the composed prompt is empty — the single
formatted block (length 4810) fits neither slot, so both slots are marked
full and nothing is placed. -/
theorem C4_counterexample :
    bigUserMessage.role = Role.user ∧ 0 < PROMPT_LIMIT ∧
    conversation_message_blocks [bigUserMessage] ≠ [] ∧
    (convertMessagesToFalPrompt [bigUserMessage]).prompt = [] := by
  have hblocks : conversation_message_blocks [bigUserMessage] =
      [strOf "Human: " ++ List.replicate 4801 'a' ++ strOf "\n\n"] := rfl
  have hlen : (strOf "Human: " ++ List.replicate 4801 'a' ++ strOf "\n\n").length = 4810 := by
    rw [List.length_append, List.length_append, List.length_replicate]
    decide
  refine ⟨rfl, by decide, by rw [hblocks]; exact List.cons_ne_nil _ _, ?_⟩
  simp only [convertMessagesToFalPrompt]
  have hrem : remaining_system_limit [bigUserMessage] = 4800 := by decide
  unfold final_prompt fillStateFor
  rw [hblocks, hrem, fillBlocks_single_too_big]
  · rfl
  · rw [hlen]; decide
  · rw [hlen]; decide

/-- C4 as amended: if there is at least one user/assistant message and the
formatted block of the most recent one fits within `PROMPT_LIMIT`, then the
composed prompt is non-empty.  (The original claim, with only a positive
prompt budget, is refuted by `C4_counterexample`.) -/
theorem C4_prompt_nonempty (messages : List ChatMessage) (b : Str)
    (hb : (conversation_message_blocks messages).getLast? = some b)
    (hfit : b.length ≤ PROMPT_LIMIT) :
    (convertMessagesToFalPrompt messages).prompt ≠ [] := by
  show final_prompt messages ≠ []
  obtain ⟨rest, hrev⟩ : ∃ rest, (conversation_message_blocks messages).reverse = b :: rest := by
    have h := List.head?_reverse (conversation_message_blocks messages)
    rw [hb] at h
    cases hr : (conversation_message_blocks messages).reverse with
    | nil => rw [hr] at h; simp at h
    | cons x xs =>
      rw [hr] at h
      simp at h
      exact ⟨xs, by rw [h]⟩
  have hstep_pf : (fillStep PROMPT_LIMIT (remaining_system_limit messages)
      (initFillState (remaining_system_limit messages)) b).promptFull = false := by
    unfold fillStep
    rw [if_neg (by simp [initFillState]),
      if_pos ⟨rfl, by simpa [initFillState] using hfit⟩]
    rfl
  have hstep_pb : (fillStep PROMPT_LIMIT (remaining_system_limit messages)
      (initFillState (remaining_system_limit messages)) b).prompt_history_blocks = [b] := by
    unfold fillStep
    rw [if_neg (by simp [initFillState]),
      if_pos ⟨rfl, by simpa [initFillState] using hfit⟩]
    rfl
  obtain ⟨i, j, hij, hj, hpr, hsy⟩ :=
    fill_phaseA PROMPT_LIMIT (remaining_system_limit messages) rest
      (fillStep PROMPT_LIMIT (remaining_system_limit messages)
        (initFillState (remaining_system_limit messages)) b)
      hstep_pf
  have hmem : b ∈ (fillStateFor messages).prompt_history_blocks := by
    unfold fillStateFor fillBlocks
    rw [hrev, List.foldl_cons, hpr, hstep_pb]
    simp
  have hbmem : b ∈ conversation_message_blocks messages := by
    have : b ∈ (conversation_message_blocks messages).reverse := by rw [hrev]; simp
    simpa using this
  obtain ⟨c, hc, hw⟩ := conv_block_has_nonws messages b hbmem
  unfold final_prompt
  exact trimStr_ne_nil _ c (List.mem_flatten.mpr ⟨b, hmem, hc⟩) hw

/-- Witness for `C4_prompt_nonempty` at a concrete input. -/
theorem C4_prompt_nonempty_witness :
    (conversation_message_blocks [⟨Role.user, some (strOf "hi")⟩]).getLast? =
        some (strOf "Human: hi\n\n") ∧
    (strOf "Human: hi\n\n").length ≤ PROMPT_LIMIT ∧
    (convertMessagesToFalPrompt [⟨Role.user, some (strOf "hi")⟩]).prompt ≠ [] :=
  ⟨by decide, by decide,
    C4_prompt_nonempty [⟨Role.user, some (strOf "hi")⟩] (strOf "Human: hi\n\n")
      (by decide) (by decide)⟩

/-! ## Delta Reconstructor lemmas -/

theorem partOf_eq_false_iff (e : FalStreamEvent) :
    partOf e = false ↔ e.partFlag = some false := by
  unfold partOf
  cases e.partFlag <;> simp

theorem computeDelta_of_prefix (prev cur : Str) (h : prev <+: cur) :
    computeDelta prev cur = cur.drop prev.length := by
  unfold computeDelta
  rw [if_pos (List.isPrefixOf_iff_prefix.mpr h)]

theorem computeDelta_of_not_prefix (prev cur : Str) (h : ¬ prev <+: cur) (hne : cur ≠ []) :
    computeDelta prev cur = cur := by
  unfold computeDelta
  rw [if_neg (fun hb => h (List.isPrefixOf_iff_prefix.mp hb)),
    if_pos (List.length_pos.mpr hne)]

theorem computeDelta_nil_prev (cur : Str) : computeDelta [] cur = cur := by
  unfold computeDelta
  rw [if_pos (List.isPrefixOf_iff_prefix.mpr List.nil_prefix)]
  simp

theorem prefix_append_drop (prev cur : Str) (h : prev <+: cur) :
    prev ++ cur.drop prev.length = cur := by
  obtain ⟨t, rfl⟩ := h
  rw [List.drop_left]

theorem processStream_cons_none (e : FalStreamEvent) (rest : List FalStreamEvent) (prev : Str)
    (he : e.error = none) :
    processStream (e :: rest) prev =
      (if 0 < (computeDelta prev (currentOutputOf e)).length ∨ partOf e = false then
        [{ deltaText := computeDelta prev (currentOutputOf e),
           isFinal := !(partOf e), errorInfo := none }]
      else []) ++ processStream rest (currentOutputOf e) := by
  simp only [processStream, processEvent, he]
  split_ifs <;> simp_all

theorem processStream_cons_error (e : FalStreamEvent) (rest : List FalStreamEvent)
    (prev : Str) (err : Str) (he : e.error = some err) :
    processStream (e :: rest) prev = [errorChunk err] := by
  simp [processStream, processEvent, he]

theorem processStream_mono_deltas :
    ∀ (events : List FalStreamEvent) (prev : Str),
      (∀ e ∈ events, e.error = none) →
      List.Chain (fun a b => a <+: b) prev (events.map currentOutputOf) →
      prev ++ ((processStream events prev).map OutputChunk.deltaText).flatten =
        (events.map currentOutputOf).getLastD prev := by
  intro events
  induction events with
  | nil => intro prev _ _; simp [processStream]
  | cons e rest ih =>
    intro prev herr hchain
    have he : e.error = none := herr e (List.mem_cons_self e rest)
    have herr' : ∀ x ∈ rest, x.error = none := fun x hx => herr x (List.mem_cons_of_mem _ hx)
    rw [List.map_cons, List.chain_cons] at hchain
    obtain ⟨hpre, hchain'⟩ := hchain
    have hd : computeDelta prev (currentOutputOf e) =
        (currentOutputOf e).drop prev.length := computeDelta_of_prefix _ _ hpre
    have hih := ih (currentOutputOf e) herr' hchain'
    rw [List.map_cons, List.getLastD_cons, ← hih, processStream_cons_none e rest prev he]
    split_ifs with hc
    · simp only [List.singleton_append, List.map_cons, List.flatten_cons, ← List.append_assoc]
      rw [hd, prefix_append_drop _ _ hpre]
    · push_neg at hc
      have hdz : computeDelta prev (currentOutputOf e) = [] :=
        List.length_eq_zero.mp (by omega)
      have hpe : prev = currentOutputOf e := by
        have hpd := prefix_append_drop prev (currentOutputOf e) hpre
        rw [← hd, hdz, List.append_nil] at hpd
        exact hpd
      rw [List.nil_append, hpe]

/-- C3: delta suffix law.  For an error-free stream whose snapshots extend one
another (each previous output is a prefix of the next), the concatenation of
all emitted delta texts reconstructs the final snapshot; and the spec's
three-event example produces deltas `Hi`, ` there`, `!` and the done
terminator. -/
theorem C3_delta_suffix_law :
    (∀ events : List FalStreamEvent,
      (∀ e ∈ events, e.error = none) →
      List.Chain (fun a b => a <+: b) [] (events.map currentOutputOf) →
      ((processStream events []).map OutputChunk.deltaText).flatten =
        (events.map currentOutputOf).getLastD []) ∧
    runStream exampleEvents =
      [SSEFrame.chunk ⟨strOf "Hi", false, none⟩,
       SSEFrame.chunk ⟨strOf " there", false, none⟩,
       SSEFrame.chunk ⟨strOf "!", true, none⟩,
       SSEFrame.done] := by
  constructor
  · intro events herr hchain
    have h := processStream_mono_deltas events [] herr hchain
    simpa using h
  · decide

/-- Witness for the delta suffix law at the spec's example events. -/
theorem C3_delta_suffix_law_witness :
    ((processStream exampleEvents []).map OutputChunk.deltaText).flatten =
      strOf "Hi there!" := by
  have hchain : List.Chain (fun a b : Str => a <+: b) []
      (exampleEvents.map currentOutputOf) := by
    show List.Chain _ [] [strOf "Hi", strOf "Hi there", strOf "Hi there!"]
    exact List.Chain.cons List.nil_prefix
      (List.Chain.cons ⟨strOf " there", by decide⟩
        (List.Chain.cons ⟨strOf "!", by decide⟩ List.Chain.nil))
  have h := C3_delta_suffix_law.1 exampleEvents (by decide) hchain
  rw [h]
  decide

/-- C5: non-monotonic recovery.  For an error-free event whose non-empty
snapshot does not extend the tracked previous output, the whole snapshot is
emitted as the delta and the tracked previous output becomes that snapshot. -/
theorem C5_nonmonotonic_recovery (e : FalStreamEvent) (prev : Str)
    (he : e.error = none) (hne : currentOutputOf e ≠ [])
    (hnp : ¬ prev <+: currentOutputOf e) :
    processEvent e prev =
      (some { deltaText := currentOutputOf e, isFinal := !(partOf e), errorInfo := none },
       currentOutputOf e, false) := by
  have hd := computeDelta_of_not_prefix prev (currentOutputOf e) hnp hne
  simp only [processEvent, he, hd]
  rw [if_pos (Or.inl (List.length_pos.mpr hne))]

/-- Witness for non-monotonic recovery at a concrete event. -/
theorem C5_nonmonotonic_recovery_witness :
    processEvent ⟨some (strOf "Bye"), none, none⟩ (strOf "Hi") =
      (some ⟨strOf "Bye", false, none⟩, strOf "Bye", false) :=
  C5_nonmonotonic_recovery ⟨some (strOf "Bye"), none, none⟩ (strOf "Hi")
    rfl (by decide) (by decide)

/-- C6: per-event emission.  Every event yields at most one chunk; for an
error-free event a chunk is emitted exactly when the computed delta is
non-empty or the event's partial flag is explicitly false; in particular the
final event (partial explicitly false) always yields exactly one chunk, even
with an empty delta. -/
theorem C6_emit_condition (e : FalStreamEvent) (prev : Str) :
    (processEvent e prev).1.toList.length ≤ 1 ∧
    (e.error = none →
      ((processEvent e prev).1.isSome = true ↔
        (computeDelta prev (currentOutputOf e) ≠ [] ∨ e.partFlag = some false))) ∧
    (e.error = none → e.partFlag = some false →
      (processEvent e prev).1.toList.length = 1) := by
  refine ⟨?_, ?_, ?_⟩
  · cases he : e.error with
    | some err => simp [processEvent, he]
    | none =>
      simp only [processEvent, he]
      split_ifs <;> simp
  · intro he
    simp only [processEvent, he]
    split_ifs with hc
    · simp only [Option.isSome_some, true_iff]
      rcases hc with h1 | h2
      · exact Or.inl (fun hnil => by rw [hnil] at h1; simp at h1)
      · exact Or.inr ((partOf_eq_false_iff e).mp h2)
    · simp only [Option.isSome_none, Bool.false_eq_true, false_iff]
      intro hcon
      apply hc
      rcases hcon with h1 | h2
      · exact Or.inl (List.length_pos.mpr h1)
      · exact Or.inr ((partOf_eq_false_iff e).mpr h2)
  · intro he hp
    simp only [processEvent, he]
    rw [if_pos (Or.inr ((partOf_eq_false_iff e).mpr hp))]
    rfl

/-- Witness for the emission condition: a final event with no new text still
emits exactly one chunk, and a no-delta partial event emits none. -/
theorem C6_emit_condition_witness :
    (processEvent ⟨some [], some false, none⟩ []).1.toList.length = 1 ∧
    (processEvent ⟨some [], some true, none⟩ []).1.isSome = false := by
  constructor
  · exact (C6_emit_condition ⟨some [], some false, none⟩ []).2.2 rfl rfl
  · have h := ((C6_emit_condition ⟨some [], some true, none⟩ []).2.1 rfl).not
    simp only [computeDelta_nil_prev, currentOutputOf] at h
    simp at h
    rw [h, Option.isSome_none]

theorem processStream_append (rest : List FalStreamEvent) :
    ∀ (pre : List FalStreamEvent) (prev : Str), (∀ x ∈ pre, x.error = none) →
      processStream (pre ++ rest) prev =
        processStream pre prev ++ processStream rest (prevAfter pre prev) := by
  intro pre
  induction pre with
  | nil => intro prev _; simp [processStream, prevAfter]
  | cons e pre' ih =>
    intro prev herr
    have he : e.error = none := herr e (List.mem_cons_self _ _)
    have herr' : ∀ x ∈ pre', x.error = none := fun x hx => herr x (List.mem_cons_of_mem _ hx)
    rw [List.cons_append, processStream_cons_none _ _ _ he, processStream_cons_none _ _ _ he,
      ih _ herr']
    have hpa : prevAfter (e :: pre') prev = prevAfter pre' (currentOutputOf e) := rfl
    rw [hpa, List.append_assoc]

/-- C7: on the first event carrying an error payload the stream emits the
chunks of the earlier error-free events, then exactly one terminal error chunk
carrying the payload, then the done terminator; the events after the error are
never consumed (the result does not depend on them). -/
theorem C7_error_chunk_terminates (pre : List FalStreamEvent) (e : FalStreamEvent)
    (post : List FalStreamEvent) (err : Str)
    (hpre : ∀ x ∈ pre, x.error = none) (he : e.error = some err) :
    runStream (pre ++ e :: post) =
      (processStream pre []).map SSEFrame.chunk ++
        [SSEFrame.chunk (errorChunk err), SSEFrame.done] := by
  unfold runStream
  rw [processStream_append (e :: post) pre [] hpre,
    processStream_cons_error e post _ err he]
  simp

/-- Witness for the error-terminated stream at concrete events: the event
after the error is ignored. -/
theorem C7_error_chunk_terminates_witness :
    runStream [⟨none, none, some (strOf "boom")⟩, ⟨some (strOf "x"), none, none⟩] =
      [SSEFrame.chunk (errorChunk (strOf "boom")), SSEFrame.done] := by
  have h := C7_error_chunk_terminates [] ⟨none, none, some (strOf "boom")⟩
    [⟨some (strOf "x"), none, none⟩] (strOf "boom") (by simp) rfl
  simpa using h

/-- C10: an error-free event whose extracted output is empty while the tracked
previous output is non-empty computes an empty delta (so a chunk is emitted
only if the event is final), resets the tracked previous output to empty, and
therefore the next error-free event with a non-empty output emits its entire
output as its delta. -/
theorem C10_empty_snapshot_resets (e : FalStreamEvent) (prev : Str)
    (he : e.error = none) (hout : currentOutputOf e = []) (hprev : prev ≠ []) :
    computeDelta prev (currentOutputOf e) = [] ∧
    (processEvent e prev).2.1 = [] ∧
    ((processEvent e prev).1.isSome = true ↔ e.partFlag = some false) ∧
    (∀ e2 : FalStreamEvent, e2.error = none → currentOutputOf e2 ≠ [] →
      (processEvent e2 ((processEvent e prev).2.1)).1 =
        some { deltaText := currentOutputOf e2, isFinal := !(partOf e2),
               errorInfo := none }) := by
  have hd : computeDelta prev (currentOutputOf e) = [] := by
    rw [hout]
    cases prev with
    | nil => exact absurd rfl hprev
    | cons a as => rfl
  have hsnd : (processEvent e prev).2.1 = [] := by
    simp only [processEvent, he]
    exact hout
  refine ⟨hd, hsnd, ?_, ?_⟩
  · simp only [processEvent, he]
    split_ifs with hc
    · simp only [Option.isSome_some, true_iff]
      rcases hc with h1 | h2
      · rw [hd] at h1; simp at h1
      · exact (partOf_eq_false_iff e).mp h2
    · simp only [Option.isSome_none, Bool.false_eq_true, false_iff]
      intro hcon
      exact hc (Or.inr ((partOf_eq_false_iff e).mpr hcon))
  · intro e2 he2 hne2
    rw [hsnd]
    simp only [processEvent, he2, computeDelta_nil_prev]
    rw [if_pos (Or.inl (List.length_pos.mpr hne2))]

/-- Witness for the empty-snapshot reset at concrete events. -/
theorem C10_empty_snapshot_resets_witness :
    computeDelta (strOf "Hi") (currentOutputOf ⟨none, none, none⟩) = [] ∧
    (processEvent ⟨none, none, none⟩ (strOf "Hi")).2.1 = [] ∧
    (processEvent ⟨some (strOf "New"), none, none⟩
        ((processEvent ⟨none, none, none⟩ (strOf "Hi")).2.1)).1 =
      some ⟨strOf "New", false, none⟩ := by
  have h := C10_empty_snapshot_resets ⟨none, none, none⟩ (strOf "Hi") rfl rfl (by decide)
  refine ⟨h.1, h.2.1, ?_⟩
  have h4 := h.2.2.2 ⟨some (strOf "New"), none, none⟩ rfl (by decide)
  simpa using h4
